import Mathlib

/-!
# prom-k8s-versions: the classify / aggregate / sort pipeline of `pkg/prom/client.go`

A shallow embedding of the pure part of `PromClient.GetInfo` and of the helper
methods on `EntityInfo`, `EntityInfoList`, `ClusterResultSet` and `ClusterFilter`.

Conventions of the embedding.

* A Go `string` is a Lean `String`.  Go compares strings byte by byte; on valid
  UTF-8 that is the same order as comparing code points, which is what `strLess`
  does.
* A Go `map[string]V` is an `AList`: a finite association list whose keys are
  unique.  A Go map has no iteration order; every loop over a map below runs
  over the association list in its stored order.
* The Prometheus round trip at the top of `GetInfo` is I/O; the embedding starts
  from the vector it returns, one label map per sample.
* `regexp`, `strings.Replace`, `sort.Sort` and `sort.Strings` belong to the Go
  standard library, not to the repository.  Each is represented as described at
  its definition.
-/

namespace Prom

/-! ## Strings -/

/-- Lexicographic "less than" on character sequences, first difference decides. -/
def ltChars : List Char → List Char → Bool
  | _, [] => false
  | [], _ :: _ => true
  | a :: as, b :: bs =>
    if a < b then true
    else if b < a then false
    else ltChars as bs

/-- Go's `s < t` on strings. -/
def strLess (s t : String) : Bool := ltChars s.data t.data

/-- One left-to-right pass of `strings.Replace(s, old, new, -1)` for a non-empty
`old`: at each position where `old` starts, `new` is written and the scan resumes
right after that occurrence (the counter is the number of characters of the
occurrence still to be skipped); any other character is copied. -/
def replaceScan (old new : List Char) : Nat → List Char → List Char
  | _, [] => []
  | skip + 1, _ :: cs => replaceScan old new skip cs
  | 0, c :: cs =>
    if old.isPrefixOf (c :: cs) then new ++ replaceScan old new (old.length - 1) cs
    else c :: replaceScan old new 0 cs

/-- Go's `strings.Replace(s, old, new, -1)`: every non-overlapping occurrence of
`old`, leftmost first, is replaced by `new`.  With `old = new` the string is
returned as is; with an empty `old`, `new` is inserted before every character and
at the end. -/
def stringsReplaceAll (s old new : String) : String :=
  if old = new then s
  else if old.data = [] then
    String.mk (new.data ++ (s.data.map (fun c => c :: new.data)).flatten)
  else String.mk (replaceScan old.data new.data 0 s.data)

/-! ## Label maps -/

/-- The `map[string]string` built by `MetricLabels` for one sample. -/
abbrev Labels := String → Option String

/-- Go's `labels[k]`: the zero value `""` for an absent key. -/
def Labels.get (labels : Labels) (k : String) : String := (labels k).getD ""

/-! ## Entities -/

structure ContainerInfo where
  ContainerName : String := ""
  ContainerImage : String := ""
deriving DecidableEq, Repr

abbrev EntityType := String

def EntityDeployment : EntityType := "Deployment"
def EntityDaemonset : EntityType := "DaemonSet"
def EntityStatefulset : EntityType := "StatefulSet"
def EntityPod : EntityType := "Pod"

/-- The struct `EntityInfo`; the embedded `ContainerInfo` promotes its fields.
The field `Type` of the source is `Typ` here, `Type` being reserved. -/
structure EntityInfo extends ContainerInfo where
  Name : String := ""
  Typ : EntityType := ""
  ChartName : String := ""
deriving DecidableEq, Repr

/-- `(*EntityInfo).SetChartFrom`. -/
def EntityInfo.SetChartFrom (e : EntityInfo) (labels : Labels) : EntityInfo :=
  match labels "label_chart" with
  | some name => { e with ChartName := name }
  | none =>
    match labels "label_helm_sh_chart" with
    | some name => { e with ChartName := name }
    | none => e

/-- The body of the `GetInfo` loop from `var entry EntityInfo` to
`entry.SetChartFrom(labels)`: the `switch` on `__name__`.  `none` is the
`default:` branch, which logs a warning and `continue`s.  The `fmt.Printf` of the
statefulset case prints the entry and changes nothing. -/
def classify (labels : Labels) : Option EntityInfo :=
  let entry : EntityInfo := {}
  let metricName := labels.get "__name__"
  if metricName = "kube_pod_container_info" then
    let entry := { entry with Typ := EntityPod }
    let entry := { entry with
      ContainerName := labels.get "container", ContainerImage := labels.get "image" }
    let entry := { entry with Name := labels.get "pod" }
    let entry := { entry with
      ContainerImage := stringsReplaceAll entry.ContainerImage "docker.io/" "" }
    some (entry.SetChartFrom labels)
  else if metricName = "kube_deployment_labels" then
    let entry := { entry with Typ := EntityDeployment }
    let entry := { entry with Name := labels.get "deployment" }
    some (entry.SetChartFrom labels)
  else if metricName = "kube_daemonset_labels" then
    let entry := { entry with Typ := EntityDaemonset }
    let entry := { entry with Name := labels.get "statefulset" }
    some (entry.SetChartFrom labels)
  else if metricName = "kube_statefulset_labels" then
    let entry := { entry with Typ := EntityStatefulset }
    let entry := { entry with Name := labels.get "daemonset" }
    some (entry.SetChartFrom labels)
  else none

/-! ## `EntityInfoList` and its `sort.Interface` methods -/

abbrev EntityInfoList := List EntityInfo

def EntityInfoList.Len (eil : EntityInfoList) : Nat := eil.length

/-- `EntityInfoList.Swap`.  Go panics on an index outside the slice; the `sort`
package only passes indices below `Len()`, and the list is left as it is for any
other. -/
def EntityInfoList.Swap (eil : EntityInfoList) (i j : Nat) : EntityInfoList :=
  match eil[i]?, eil[j]? with
  | some a, some b => (eil.set i b).set j a
  | _, _ => eil

/-- `EntityInfoList.Less`: both the type and the name have to be smaller.  As for
`Swap`, only indices below `Len()` occur. -/
def EntityInfoList.Less (eil : EntityInfoList) (i j : Nat) : Bool :=
  match eil[i]?, eil[j]? with
  | some a, some b => strLess a.Typ b.Typ && strLess a.Name b.Name
  | _, _ => false

/-- The two-key comparator the sorter is specified with: by type, then by name. -/
def lexLess (a b : EntityInfo) : Bool :=
  strLess a.Typ b.Typ || (a.Typ == b.Typ && strLess a.Name b.Name)

/-- The inner loop of Go's `insertionSort`:
`for j := i; j > a && data.Less(j, j-1); j-- { data.Swap(j, j-1) }`. -/
def insertionInner (a : Nat) : Nat → EntityInfoList → EntityInfoList
  | 0, data => data
  | j + 1, data =>
    if a < j + 1 ∧ EntityInfoList.Less data (j + 1) j = true then
      insertionInner a j (EntityInfoList.Swap data (j + 1) j)
    else data

/-- Go's `insertionSort(data, a, b)`: `for i := a + 1; i < b; i++` around the
inner loop. -/
def insertionSort (data : EntityInfoList) (a b : Nat) : EntityInfoList :=
  (List.range' (a + 1) (b - (a + 1))).foldl (fun d i => insertionInner a i d) data

/-- What `sort.Sort` does to a slice of fewer than seven elements in every Go
release (and of at most twelve since the pattern-defeating quicksort of Go 1.19):
one call `insertionSort(data, 0, n)`.  Longer slices take the quicksort and
heapsort paths of the library, which are not modelled; results about them go
through `SwapOnly` below. -/
def sortShort (data : EntityInfoList) : EntityInfoList :=
  insertionSort data 0 (EntityInfoList.Len data)

/-- The effect of a sequence of `Swap` calls. -/
def applySwaps (data : EntityInfoList) (swaps : List (Nat × Nat)) : EntityInfoList :=
  swaps.foldl (fun d p => EntityInfoList.Swap d p.1 p.2) data

/-- What `sort.Interface` guarantees of any implementation of `sort.Sort`: it
reads the slice through `Len` and `Less` and changes it through `Swap` only, so
its result is the input after some sequence of swaps. -/
def SwapOnly (sortImpl : EntityInfoList → EntityInfoList) : Prop :=
  ∀ data, ∃ swaps, sortImpl data = applySwaps data swaps

/-! ## Cluster entries and result sets -/

structure ClusterEntry where
  ClusterName : String
  Entries : List EntityInfo
deriving DecidableEq, Repr

def NewClusterEntry (name : String) : ClusterEntry :=
  { ClusterName := name, Entries := [] }

/-- The map `ClusterResultSet`, from cluster name to its entry. -/
abbrev ClusterResultSet := AList (fun _ : String => ClusterEntry)

/-- The entity list stored under a cluster name, empty when there is no key. -/
def ClusterResultSet.entriesOf (crs : ClusterResultSet) (c : String) : List EntityInfo :=
  match crs.lookup c with
  | some ce => ce.Entries
  | none => []

/-! ## Cluster filter -/

/-- A compiled `*regexp.Regexp`, represented by its method `MatchString`, the
only one the filter calls.  `MatchString` reports whether the string contains
any match of the pattern (a search, not anchored). -/
structure Regexp where
  MatchString : String → Bool

/-- The map `ClusterFilter`, from pattern source to compiled pattern. -/
abbrev ClusterFilter := AList (fun _ : String => Regexp)

def ClusterFilter.Empty (cf : ClusterFilter) : Bool := cf.entries.length == 0

/-- `ClusterFilter.Has`: the loop over the patterns returns at the first match. -/
def ClusterFilter.Has (cf : ClusterFilter) (name : String) : Bool :=
  if ClusterFilter.Empty cf then true
  else cf.entries.any (fun p => p.2.MatchString name)

/-! ## `GetInfo` -/

/-- One iteration of `for _, entry := range results` in `GetInfo`. -/
def GetInfoStep (filter : ClusterFilter) (out : ClusterResultSet) (labels : Labels) :
    ClusterResultSet :=
  let clusterName := labels.get "cluster_name"
  if ClusterFilter.Has filter clusterName = false then out
  else
    let clusterEntry := (out.lookup clusterName).getD (NewClusterEntry clusterName)
    let out := if (out.lookup clusterName).isSome then out
      else out.insert clusterName clusterEntry
    match classify labels with
    | none => out
    | some entry =>
      out.insert clusterName { clusterEntry with Entries := clusterEntry.Entries ++ [entry] }

/-- The closing loop of `GetInfo`:
`for k := range out { sort.Sort(EntityInfoList(out[k].Entries)) }`. -/
def sortEntries (sortImpl : EntityInfoList → EntityInfoList) (out : ClusterResultSet) :
    ClusterResultSet :=
  out.keys.foldl
    (fun m k =>
      match m.lookup k with
      | some ce => m.insert k { ce with Entries := sortImpl ce.Entries }
      | none => m)
    out

/-- `PromClient.GetInfo` from `out := map[string]*ClusterEntry{}` on, given the
samples of the query result.  `sortImpl` is the library's `sort.Sort` on an
`EntityInfoList`. -/
def GetInfo (sortImpl : EntityInfoList → EntityInfoList) (results : List Labels)
    (filter : ClusterFilter) : ClusterResultSet :=
  sortEntries sortImpl (results.foldl (GetInfoStep filter) ∅)

/-! ## Queries on a result set -/

/-- Go's `sort.Strings`.  `<` on strings is a strict total order and the keys of
a map are distinct, so the sorted arrangement is unique and every correct sorting
algorithm returns it; insertion into a sorted list is used here. -/
def sortStrings (l : List String) : List String :=
  l.insertionSort (fun s t => strLess t s = false)

/-- `ClusterResultSet.SortedByCluster`. -/
def ClusterResultSet.SortedByCluster (crs : ClusterResultSet) : List String :=
  sortStrings crs.keys

/-- `ClusterResultSet.HasPods`: the nested loops return at the first pod. -/
def ClusterResultSet.HasPods (crs : ClusterResultSet) : Bool :=
  crs.entries.any (fun p => p.2.Entries.any (fun e => e.Typ == EntityPod))

/-- `ClusterResultSet.HasDeploys`: the nested loops return at the first entity
that is not a pod. -/
def ClusterResultSet.HasDeploys (crs : ClusterResultSet) : Bool :=
  crs.entries.any (fun p => p.2.Entries.any (fun e => e.Typ != EntityPod))

/-- Whether a sample counts for cluster `c`: its `cluster_name` label is `c` and
the filter accepts that name. -/
def retained (filter : ClusterFilter) (c : String) (labels : Labels) : Bool :=
  decide (labels.get "cluster_name" = c) && ClusterFilter.Has filter c

/-- Whether the `__name__` label is one of the four metric names of the query. -/
def recognised (labels : Labels) : Bool :=
  decide (labels.get "__name__" ∈ ["kube_pod_container_info", "kube_deployment_labels",
    "kube_daemonset_labels", "kube_statefulset_labels"])

/-- The entry stored under `c` once the entities `es` have been appended: to the
entry found, or to a new one. -/
def appendTo (found : Option ClusterEntry) (c : String) (es : List EntityInfo) : ClusterEntry :=
  match found with
  | some ce => { ce with Entries := ce.Entries ++ es }
  | none => { ClusterName := c, Entries := es }

/-! ## Concrete inputs -/

/-- The label map holding the given pairs. -/
def labelsOf (kv : List (String × String)) : Labels := fun k => kv.lookup k

def podA : Labels :=
  labelsOf [("cluster_name", "prod"), ("__name__", "kube_pod_container_info"), ("pod", "a")]

def deployB : Labels :=
  labelsOf [("cluster_name", "prod"), ("__name__", "kube_deployment_labels"),
    ("deployment", "b")]

def podC : Labels :=
  labelsOf [("cluster_name", "dev"), ("__name__", "kube_pod_container_info"), ("pod", "c")]

/-- A sample of a metric the classifier does not know. -/
def upProd : Labels := labelsOf [("cluster_name", "prod"), ("__name__", "up")]

def upDev : Labels := labelsOf [("cluster_name", "dev"), ("__name__", "up")]

def podP1 : Labels :=
  labelsOf [("__name__", "kube_pod_container_info"), ("pod", "p1"), ("container", "c1"),
    ("image", "docker.io/nginx:1.2")]

/-- A pod whose image names `docker.io/` behind another registry host. -/
def podMirror : Labels :=
  labelsOf [("__name__", "kube_pod_container_info"), ("pod", "p1"), ("container", "c1"),
    ("image", "quay.io/docker.io/nginx")]

def deployWeb : Labels :=
  labelsOf [("__name__", "kube_deployment_labels"), ("deployment", "web"),
    ("label_chart", "web-1.0"), ("label_helm_sh_chart", "web-2.0")]

/-- The compiled form of a pattern without metacharacters: it matches the strings
that contain it. -/
def literalRegexp (pat : String) : Regexp :=
  { MatchString := fun s => decide (pat.data <:+: s.data) }

def prodFilter : ClusterFilter := AList.insert "prod" (literalRegexp "prod") ∅

/-! ## The string order -/

theorem ltChars_iff (s t : List Char) : ltChars s t = true ↔ s < t := by
  induction s generalizing t with
  | nil =>
    cases t with
    | nil => simp [ltChars]
    | cons b bs => simpa [ltChars] using List.Lex.nil
  | cons a as ih =>
    cases t with
    | nil => simp [ltChars]
    | cons b bs =>
      simp only [ltChars]
      by_cases h1 : a < b
      · simpa [h1] using List.Lex.rel h1
      · by_cases h2 : b < a
        · simp only [h1, h2, if_true, if_false]
          constructor
          · intro h
            cases h
          · intro h
            cases h with
            | rel h => exact absurd h h1
            | cons h => exact absurd h2 (lt_irrefl _)
        · simp only [h1, h2, if_false, ih]
          constructor
          · intro h
            have heq : a = b := le_antisymm (not_lt.mp h2) (not_lt.mp h1)
            subst heq
            exact List.Lex.cons h
          · intro h
            cases h with
            | rel h => exact absurd h h1
            | cons h => exact h

theorem strLess_iff (s t : String) : strLess s t = true ↔ s < t := by
  rw [String.lt_iff_toList_lt]
  exact ltChars_iff s.data t.data

theorem strLess_false_iff (s t : String) : strLess s t = false ↔ t ≤ s := by
  rw [← not_lt, ← strLess_iff]
  simp

theorem strLess_asymm (s t : String) (h : strLess s t = true) : strLess t s = false := by
  rw [strLess_false_iff]
  exact le_of_lt ((strLess_iff s t).mp h)

theorem strLess_irrefl (s : String) : strLess s s = false := by
  rw [strLess_false_iff]

/-! ## The comparator -/

theorem Less_eq_of_get (eil : EntityInfoList) (i j : Nat) (a b : EntityInfo)
    (hi : eil[i]? = some a) (hj : eil[j]? = some b) :
    EntityInfoList.Less eil i j = (strLess a.Typ b.Typ && strLess a.Name b.Name) := by
  simp [EntityInfoList.Less, hi, hj]

theorem Less_one_key (eil : EntityInfoList) (i j : Nat) (a b : EntityInfo)
    (hi : eil[i]? = some a) (hj : eil[j]? = some b)
    (h : (strLess a.Typ b.Typ = true ∧ strLess a.Name b.Name = false) ∨
      (strLess a.Typ b.Typ = false ∧ strLess a.Name b.Name = true)) :
    EntityInfoList.Less eil i j = false ∧ EntityInfoList.Less eil j i = false ∧ a ≠ b := by
  rw [Less_eq_of_get eil i j a b hi hj, Less_eq_of_get eil j i b a hj hi]
  rcases h with ⟨h1, h2⟩ | ⟨h1, h2⟩
  · refine ⟨by simp [h2], by simp [strLess_asymm _ _ h1], ?_⟩
    intro hab
    subst hab
    rw [strLess_irrefl] at h1
    exact Bool.noConfusion h1
  · refine ⟨by simp [h1], by simp [strLess_asymm _ _ h2], ?_⟩
    intro hab
    subst hab
    rw [strLess_irrefl] at h2
    exact Bool.noConfusion h2

/-! ## The cluster filter -/

theorem Has_of_Empty (cf : ClusterFilter) (name : String) (h : ClusterFilter.Empty cf = true) :
    ClusterFilter.Has cf name = true := by
  simp [ClusterFilter.Has, h]

theorem Has_iff_match (cf : ClusterFilter) (name : String)
    (h : ClusterFilter.Empty cf = false) :
    ClusterFilter.Has cf name = true ↔
      ∃ pat re, cf.lookup pat = some re ∧ re.MatchString name = true := by
  have hH : ClusterFilter.Has cf name = cf.entries.any (fun p => p.2.MatchString name) := by
    simp [ClusterFilter.Has, h]
  rw [hH, List.any_eq_true]
  constructor
  · rintro ⟨⟨pat, re⟩, hmem, hm⟩
    exact ⟨pat, re, AList.mem_lookup_iff.mpr hmem, hm⟩
  · rintro ⟨pat, re, hl, hm⟩
    exact ⟨⟨pat, re⟩, AList.mem_lookup_iff.mp hl, hm⟩

/-! ## Queries on a result set -/

theorem HasPods_iff (crs : ClusterResultSet) :
    ClusterResultSet.HasPods crs = true ↔
      ∃ c ce e, crs.lookup c = some ce ∧ e ∈ ce.Entries ∧ e.Typ = EntityPod := by
  simp only [ClusterResultSet.HasPods, List.any_eq_true, beq_iff_eq]
  constructor
  · rintro ⟨⟨c, ce⟩, hmem, e, he, ht⟩
    exact ⟨c, ce, e, AList.mem_lookup_iff.mpr hmem, he, ht⟩
  · rintro ⟨c, ce, e, hl, he, ht⟩
    exact ⟨⟨c, ce⟩, AList.mem_lookup_iff.mp hl, e, he, ht⟩

theorem HasDeploys_iff (crs : ClusterResultSet) :
    ClusterResultSet.HasDeploys crs = true ↔
      ∃ c ce e, crs.lookup c = some ce ∧ e ∈ ce.Entries ∧ e.Typ ≠ EntityPod := by
  simp only [ClusterResultSet.HasDeploys, List.any_eq_true, bne_iff_ne]
  constructor
  · rintro ⟨⟨c, ce⟩, hmem, e, he, ht⟩
    exact ⟨c, ce, e, AList.mem_lookup_iff.mpr hmem, he, ht⟩
  · rintro ⟨c, ce, e, hl, he, ht⟩
    exact ⟨⟨c, ce⟩, AList.mem_lookup_iff.mp hl, e, he, ht⟩

theorem strLe_total (s t : String) : strLess t s = false ∨ strLess s t = false := by
  rw [strLess_false_iff, strLess_false_iff]
  exact le_total s t

theorem strLe_trans (s t u : String) (h1 : strLess t s = false) (h2 : strLess u t = false) :
    strLess u s = false := by
  rw [strLess_false_iff] at *
  exact le_trans h1 h2

theorem sortStrings_sorted (l : List String) :
    List.Sorted (fun s t => strLess t s = false) (sortStrings l) := by
  haveI : IsTotal String (fun s t => strLess t s = false) := ⟨strLe_total⟩
  haveI : IsTrans String (fun s t => strLess t s = false) := ⟨strLe_trans⟩
  exact List.sorted_insertionSort _ l

theorem sortStrings_perm (l : List String) : (sortStrings l).Perm l :=
  List.perm_insertionSort _ l

theorem sortStrings_strict (l : List String) (h : l.Nodup) :
    List.Pairwise (fun s t => strLess s t = true) (sortStrings l) := by
  have hs := sortStrings_sorted l
  have hn : (sortStrings l).Nodup := (sortStrings_perm l).nodup_iff.mpr h
  have := List.Pairwise.and hs hn
  refine this.imp ?_
  intro s t ⟨h1, h2⟩
  rw [strLess_iff]
  rw [strLess_false_iff] at h1
  exact lt_of_le_of_ne h1 h2

theorem strLe_antisymm (s t : String) (h1 : strLess t s = false) (h2 : strLess s t = false) :
    s = t := by
  rw [strLess_false_iff] at *
  exact le_antisymm h1 h2

/-- The sorted arrangement of a list of strings is unique: whatever a sorting
algorithm returns, if it is a rearrangement of the input in ascending order, it
is the list `sortStrings` returns. -/
theorem sortStrings_unique (l sorted : List String) (hp : sorted.Perm l)
    (hs : List.Sorted (fun s t => strLess t s = false) sorted) : sorted = sortStrings l := by
  haveI : IsAntisymm String (fun s t => strLess t s = false) := ⟨strLe_antisymm⟩
  exact List.eq_of_perm_of_sorted (hp.trans (sortStrings_perm l).symm) hs (sortStrings_sorted l)

/-! ## Swaps and the insertion sort -/

theorem Swap_perm (eil : EntityInfoList) (i j : Nat) :
    (EntityInfoList.Swap eil i j).Perm eil := by
  unfold EntityInfoList.Swap
  cases hi : eil[i]? with
  | none => exact List.Perm.refl _
  | some a =>
    cases hj : eil[j]? with
    | none => exact List.Perm.refl _
    | some b =>
      obtain ⟨hil, hia⟩ := List.getElem?_eq_some.mp hi
      obtain ⟨hjl, hjb⟩ := List.getElem?_eq_some.mp hj
      rw [List.perm_iff_count]
      intro x
      have hjl1 : j < (eil.set i b).length := by simpa using hjl
      have h1 : (eil.set i b)[j] = b := by
        rw [List.getElem_set]
        split
        · rfl
        · exact hjb
      rw [List.count_set _ _ _ _ hjl1, List.count_set _ _ _ _ hil, h1, hia]
      have hpos : (a == x) = true → 0 < List.count x eil := by
        intro hax
        have : a = x := by simpa using hax
        subst this
        exact List.count_pos_iff.mpr (hia ▸ List.getElem_mem hil)
      by_cases hax : (a == x) = true <;> by_cases hbx : (b == x) = true
      · have := hpos hax
        simp only [hax, hbx, if_true]
        omega
      · have := hpos hax
        simp only [hax, hbx, if_true, if_false, Bool.false_eq_true]
        omega
      · simp only [hax, hbx, if_true, if_false, Bool.false_eq_true]
        omega
      · simp only [hax, hbx, if_false, Bool.false_eq_true]
        omega

theorem applySwaps_perm (swaps : List (Nat × Nat)) (data : EntityInfoList) :
    (applySwaps data swaps).Perm data := by
  induction swaps generalizing data with
  | nil => exact List.Perm.refl _
  | cons p ps ih =>
    simp only [applySwaps, List.foldl_cons]
    exact (ih _).trans (Swap_perm data p.1 p.2)

theorem SwapOnly_perm (sortImpl : EntityInfoList → EntityInfoList) (h : SwapOnly sortImpl)
    (data : EntityInfoList) : (sortImpl data).Perm data := by
  obtain ⟨swaps, hs⟩ := h data
  rw [hs]
  exact applySwaps_perm swaps data

theorem applySwaps_append (data : EntityInfoList) (s1 s2 : List (Nat × Nat)) :
    applySwaps data (s1 ++ s2) = applySwaps (applySwaps data s1) s2 := by
  simp [applySwaps, List.foldl_append]

theorem insertionInner_swaps (a j : Nat) (data : EntityInfoList) :
    ∃ swaps, insertionInner a j data = applySwaps data swaps := by
  induction j generalizing data with
  | zero => exact ⟨[], rfl⟩
  | succ j ih =>
    unfold insertionInner
    split
    · obtain ⟨swaps, hs⟩ := ih (EntityInfoList.Swap data (j + 1) j)
      exact ⟨(j + 1, j) :: swaps, by rw [hs]; rfl⟩
    · exact ⟨[], rfl⟩

theorem foldl_insertionInner_swaps (a : Nat) (is : List Nat) (data : EntityInfoList) :
    ∃ swaps, is.foldl (fun d i => insertionInner a i d) data = applySwaps data swaps := by
  induction is generalizing data with
  | nil => exact ⟨[], rfl⟩
  | cons i is ih =>
    obtain ⟨s1, h1⟩ := insertionInner_swaps a i data
    obtain ⟨s2, h2⟩ := ih (insertionInner a i data)
    refine ⟨s1 ++ s2, ?_⟩
    rw [List.foldl_cons, h2, h1, applySwaps_append]

theorem sortShort_SwapOnly : SwapOnly sortShort := by
  intro data
  exact foldl_insertionInner_swaps 0 _ data

/-! ## The aggregation loop -/

theorem lookup_GetInfoStep (filter : ClusterFilter) (out : ClusterResultSet) (labels : Labels)
    (c : String) :
    (GetInfoStep filter out labels).lookup c =
      if retained filter c labels = true then
        some (appendTo (out.lookup c) c (classify labels).toList)
      else out.lookup c := by
  unfold GetInfoStep retained
  by_cases hc : labels.get "cluster_name" = c
  · subst hc
    cases hH : ClusterFilter.Has filter (labels.get "cluster_name") with
    | false => simp [hH]
    | true =>
      cases hl : out.lookup (labels.get "cluster_name") with
      | none =>
        cases hcl : classify labels with
        | none => simp [hH, hl, hcl, appendTo, NewClusterEntry]
        | some e => simp [hH, hl, hcl, appendTo, NewClusterEntry]
      | some ce =>
        cases hcl : classify labels with
        | none => simp [hH, hl, hcl, appendTo]
        | some e => simp [hH, hl, hcl, appendTo]
  · have hc2 : c ≠ labels.get "cluster_name" := fun h => hc h.symm
    cases hH : ClusterFilter.Has filter (labels.get "cluster_name") with
    | false => simp [hH, hc]
    | true =>
      cases hl : out.lookup (labels.get "cluster_name") with
      | none =>
        cases hcl : classify labels with
        | none => simp [hH, hcl, hc, hl, AList.lookup_insert_ne hc2]
        | some e => simp [hH, hcl, hc, hl, AList.lookup_insert_ne hc2]
      | some ce =>
        cases hcl : classify labels with
        | none => simp [hH, hcl, hc, hl]
        | some e => simp [hH, hcl, hc, hl, AList.lookup_insert_ne hc2]

theorem appendTo_appendTo (found : Option ClusterEntry) (c : String) (es fs : List EntityInfo) :
    appendTo (some (appendTo found c es)) c fs = appendTo found c (es ++ fs) := by
  cases found <;> simp [appendTo]

theorem lookup_foldl_GetInfoStep (filter : ClusterFilter) (results : List Labels)
    (out : ClusterResultSet) (c : String) :
    (results.foldl (GetInfoStep filter) out).lookup c =
      if results.any (retained filter c) = true then
        some (appendTo (out.lookup c) c
          ((results.filter (retained filter c)).filterMap classify))
      else out.lookup c := by
  induction results generalizing out with
  | nil => simp
  | cons l rs ih =>
    rw [List.foldl_cons, ih, lookup_GetInfoStep]
    by_cases hl : retained filter c l = true
    · simp only [hl, if_true, List.any_cons, Bool.true_or, List.filter_cons_of_pos]
      by_cases hrs : rs.any (retained filter c) = true
      · simp only [hrs, if_true, appendTo_appendTo]
        cases hcl : classify l <;> simp [List.filterMap_cons, hcl]
      · have hnil : rs.filter (retained filter c) = [] := by
          rw [List.filter_eq_nil_iff]
          intro x hx hr
          exact hrs (List.any_eq_true.mpr ⟨x, hx, hr⟩)
        simp only [hrs, if_false, hnil]
        cases hcl : classify l <;> simp [List.filterMap_cons, hcl]
    · have hl2 : retained filter c l = false := by simpa using hl
      simp [hl2]

theorem lookup_sortStep (sortImpl : EntityInfoList → EntityInfoList) (m : ClusterResultSet)
    (k c : String) :
    AList.lookup c
      (match m.lookup k with
      | some ce => m.insert k { ce with Entries := sortImpl ce.Entries }
      | none => m) =
      if c = k then (m.lookup c).map (fun ce => { ce with Entries := sortImpl ce.Entries })
      else m.lookup c := by
  by_cases hck : c = k
  · subst hck
    cases h : m.lookup c <;> simp [h]
  · cases h : m.lookup k <;> simp [hck, AList.lookup_insert_ne hck]

theorem lookup_foldl_sortStep (sortImpl : EntityInfoList → EntityInfoList) (ks : List String)
    (hks : ks.Nodup) (m : ClusterResultSet) (c : String) :
    (ks.foldl
      (fun m k =>
        match m.lookup k with
        | some ce => m.insert k { ce with Entries := sortImpl ce.Entries }
        | none => m)
      m).lookup c =
      if c ∈ ks then (m.lookup c).map (fun ce => { ce with Entries := sortImpl ce.Entries })
      else m.lookup c := by
  induction ks generalizing m with
  | nil => simp
  | cons k ks ih =>
    obtain ⟨hk, hks2⟩ := List.nodup_cons.mp hks
    rw [List.foldl_cons, ih hks2, lookup_sortStep]
    by_cases hck : c = k
    · subst hck
      simp [hk]
    · simp [hck]

theorem lookup_sortEntries (sortImpl : EntityInfoList → EntityInfoList) (out : ClusterResultSet)
    (c : String) :
    (sortEntries sortImpl out).lookup c =
      (out.lookup c).map (fun ce => { ce with Entries := sortImpl ce.Entries }) := by
  unfold sortEntries
  rw [lookup_foldl_sortStep sortImpl out.keys out.keys_nodup]
  by_cases hc : c ∈ out.keys
  · simp [hc]
  · have : out.lookup c = none := AList.lookup_eq_none.mpr (fun h => hc (AList.mem_keys.mp h))
    simp [hc, this]

theorem lookup_GetInfo (sortImpl : EntityInfoList → EntityInfoList) (results : List Labels)
    (filter : ClusterFilter) (c : String) :
    (GetInfo sortImpl results filter).lookup c =
      if results.any (retained filter c) = true then
        some { ClusterName := c,
               Entries := sortImpl ((results.filter (retained filter c)).filterMap classify) }
      else none := by
  unfold GetInfo
  rw [lookup_sortEntries, lookup_foldl_GetInfoStep]
  by_cases h : results.any (retained filter c) = true
  · simp [h, appendTo]
  · simp [h]

/-! ## `strings.Replace` -/

theorem replaceScan_skip (old new : List Char) (k : Nat) (s : List Char) :
    replaceScan old new k s = replaceScan old new 0 (s.drop k) := by
  induction k generalizing s with
  | zero => simp
  | succ k ih =>
    cases s with
    | nil => simp [replaceScan]
    | cons c cs => simp [replaceScan, ih]

theorem replaceScan_none (old new : List Char) (s : List Char) (h : ¬ old <:+: s) :
    replaceScan old new 0 s = s := by
  induction s with
  | nil => simp [replaceScan]
  | cons c cs ih =>
    have h1 : old.isPrefixOf (c :: cs) = false := by
      cases hp : old.isPrefixOf (c :: cs) with
      | false => rfl
      | true => exact absurd (List.isPrefixOf_iff_prefix.mp hp).isInfix h
    have h2 : ¬ old <:+: cs := fun hi => h (hi.trans (List.suffix_cons c cs).isInfix)
    simp [replaceScan, h1, ih h2]

theorem replaceScan_first (old new pre post : List Char) (hne : old ≠ [])
    (h : ¬ old <:+: pre ++ old.dropLast) :
    replaceScan old new 0 (pre ++ old ++ post) = pre ++ new ++ replaceScan old new 0 post := by
  induction pre with
  | nil =>
    obtain ⟨o, os, rfl⟩ := List.exists_cons_of_ne_nil hne
    have hp : (o :: os).isPrefixOf (o :: os ++ post) = true :=
      List.isPrefixOf_iff_prefix.mpr (List.prefix_append _ _)
    simp only [List.nil_append, List.cons_append] at hp ⊢
    simp only [replaceScan, hp, if_true]
    rw [replaceScan_skip]
    simp
  | cons p pre ih =>
    have h1 : old.isPrefixOf (p :: pre ++ old ++ post) = false := by
      cases hp : old.isPrefixOf (p :: pre ++ old ++ post) with
      | false => rfl
      | true =>
        exfalso
        apply h
        have hsplit : p :: pre ++ old ++ post =
            (p :: pre ++ old.dropLast) ++ (old.drop (old.length - 1) ++ post) := by
          have hold : old.dropLast ++ old.drop (old.length - 1) = old := by
            rw [List.dropLast_eq_take, List.take_append_drop]
          nth_rewrite 1 [← hold]
          simp only [List.append_assoc]
        have hp1 : old <+: (p :: pre ++ old.dropLast) ++ (old.drop (old.length - 1) ++ post) :=
          hsplit ▸ List.isPrefixOf_iff_prefix.mp hp
        have hlen : old.length ≤ (p :: pre ++ old.dropLast).length := by
          simp
          omega
        exact (List.prefix_of_prefix_length_le hp1 (List.prefix_append _ _) hlen).isInfix
    have h2 : ¬ old <:+: pre ++ old.dropLast :=
      fun hi => h (hi.trans (List.suffix_cons p _).isInfix)
    simp only [List.cons_append] at h1 ⊢
    simp only [replaceScan, h1, ih h2]
    simp

/-! ## Classification -/

theorem SetChartFrom_fields (e : EntityInfo) (labels : Labels) :
    (e.SetChartFrom labels).Name = e.Name ∧ (e.SetChartFrom labels).Typ = e.Typ ∧
    (e.SetChartFrom labels).ContainerName = e.ContainerName ∧
    (e.SetChartFrom labels).ContainerImage = e.ContainerImage := by
  unfold EntityInfo.SetChartFrom
  cases labels "label_chart" <;> cases labels "label_helm_sh_chart" <;> simp

theorem classify_none_iff (labels : Labels) : recognised labels = false ↔ classify labels = none := by
  unfold recognised classify
  by_cases h1 : labels.get "__name__" = "kube_pod_container_info"
  · simp [h1]
  · by_cases h2 : labels.get "__name__" = "kube_deployment_labels"
    · simp [h2]
    · by_cases h3 : labels.get "__name__" = "kube_daemonset_labels"
      · simp [h3]
      · by_cases h4 : labels.get "__name__" = "kube_statefulset_labels"
        · simp [h4]
        · simp [h1, h2, h3, h4]

theorem SetChartFrom_ChartName_congr (e1 e2 : EntityInfo) (labels : Labels)
    (h : e1.ChartName = e2.ChartName) :
    (e1.SetChartFrom labels).ChartName = (e2.SetChartFrom labels).ChartName := by
  unfold EntityInfo.SetChartFrom
  cases labels "label_chart" <;> cases labels "label_helm_sh_chart" <;> simp [h]

theorem classify_ChartName (labels : Labels) (e : EntityInfo) (h : classify labels = some e) :
    e.ChartName = (EntityInfo.SetChartFrom {} labels).ChartName := by
  dsimp only [classify] at h
  by_cases h1 : labels.get "__name__" = "kube_pod_container_info"
  · rw [if_pos h1, Option.some.injEq] at h
    rw [← h]
    exact SetChartFrom_ChartName_congr _ _ labels rfl
  · by_cases h2 : labels.get "__name__" = "kube_deployment_labels"
    · rw [if_neg h1, if_pos h2, Option.some.injEq] at h
      rw [← h]
      exact SetChartFrom_ChartName_congr _ _ labels rfl
    · by_cases h3 : labels.get "__name__" = "kube_daemonset_labels"
      · rw [if_neg h1, if_neg h2, if_pos h3, Option.some.injEq] at h
        rw [← h]
        exact SetChartFrom_ChartName_congr _ _ labels rfl
      · by_cases h4 : labels.get "__name__" = "kube_statefulset_labels"
        · rw [if_neg h1, if_neg h2, if_neg h3, if_pos h4, Option.some.injEq] at h
          rw [← h]
          exact SetChartFrom_ChartName_congr _ _ labels rfl
        · rw [if_neg h1, if_neg h2, if_neg h3, if_neg h4] at h
          exact Option.noConfusion h

theorem stringsReplaceAll_docker (s : String) :
    stringsReplaceAll s "docker.io/" "" =
      String.mk (replaceScan "docker.io/".data [] 0 s.data) := by
  unfold stringsReplaceAll
  rw [if_neg (by decide), if_neg (by decide)]

theorem filterMap_classify_recognised (p : Labels → Bool) (rs : List Labels) :
    (rs.filter (fun l => p l && recognised l)).filterMap classify =
      (rs.filter p).filterMap classify := by
  induction rs with
  | nil => rfl
  | cons l rs ih =>
    cases hp : p l with
    | false => simp [List.filter_cons, hp, ih]
    | true =>
      cases hr : recognised l with
      | false =>
        have := (classify_none_iff l).mp hr
        simp [List.filter_cons, hp, hr, ih, List.filterMap_cons, this]
      | true =>
        simp [List.filter_cons, hp, hr, ih, List.filterMap_cons]

/-! ## Properties of the pipeline -/

/-- Claim C1, evaluated on the end-to-end scenario of the specification: cluster
"prod" receives the pod "a" and then the deployment "b", cluster "dev" the pod "c",
no filter.  After `sort.Sort` the entries of "prod" are still pod "a" followed by
deployment "b", although the two-key comparator puts the deployment first: `Less`
asks for a smaller type and a smaller name at once and so never swaps the pair. -/
theorem GetInfo_prod_not_lexicographic :
    ClusterResultSet.entriesOf (GetInfo sortShort [podA, deployB, podC] ∅) "prod" =
      [{ Name := "a", Typ := EntityPod }, { Name := "b", Typ := EntityDeployment }] ∧
    lexLess { Name := "b", Typ := EntityDeployment } { Name := "a", Typ := EntityPod } = true ∧
    lexLess { Name := "a", Typ := EntityPod } { Name := "b", Typ := EntityDeployment } = false ∧
    EntityInfoList.Less
      [{ Name := "a", Typ := EntityPod }, { Name := "b", Typ := EntityDeployment }] 1 0 = false := by
  decide

/-- Claim C2 as stated fails: the image "quay.io/docker.io/nginx" does not start
with "docker.io/", yet the classifier changes it, to "quay.io/nginx". -/
theorem classify_pod_removes_inner_occurrence :
    ¬ ("docker.io/".data <+: (podMirror.get "image").data) ∧
    classify podMirror =
      some { Name := "p1", Typ := EntityPod, ContainerName := "c1",
             ContainerImage := "quay.io/nginx" } ∧
    "quay.io/nginx" ≠ podMirror.get "image" := by
  decide

/-- Claim C2, amended: a `kube_pod_container_info` sample yields a Pod named by the
`pod` label, with the `container` label as container name and, as image, the
`image` label after `strings.Replace(image, "docker.io/", "", -1)`: an image that
does not contain "docker.io/" is unchanged, and in an image that contains it the
leftmost occurrence is removed wherever it stands and the rest is treated alike. -/
theorem classify_pod_spec (labels : Labels)
    (h : labels.get "__name__" = "kube_pod_container_info") :
    ∃ e, classify labels = some e ∧ e.Typ = EntityPod ∧ e.Name = labels.get "pod" ∧
      e.ContainerName = labels.get "container" ∧
      e.ContainerImage = stringsReplaceAll (labels.get "image") "docker.io/" "" ∧
      (¬ "docker.io/".data <:+: (labels.get "image").data →
        e.ContainerImage = labels.get "image") ∧
      (∀ pre post, (labels.get "image").data = pre ++ "docker.io/".data ++ post →
        ¬ "docker.io/".data <:+: pre ++ "docker.io".data →
        e.ContainerImage.data =
          pre ++ (stringsReplaceAll (String.mk post) "docker.io/" "").data) := by
  have hfields := SetChartFrom_fields
    { Name := labels.get "pod", Typ := EntityPod, ContainerName := labels.get "container",
      ContainerImage := stringsReplaceAll (labels.get "image") "docker.io/" "" } labels
  refine ⟨_, by simp only [classify, h, if_true], hfields.2.1, hfields.1, hfields.2.2.1,
    hfields.2.2.2, ?_, ?_⟩
  · intro hno
    rw [hfields.2.2.2]
    show stringsReplaceAll (labels.get "image") "docker.io/" "" = labels.get "image"
    rw [stringsReplaceAll_docker, replaceScan_none _ _ _ hno]
  · intro pre post himg hfirst
    rw [hfields.2.2.2]
    show (stringsReplaceAll (labels.get "image") "docker.io/" "").data = _
    rw [stringsReplaceAll_docker, stringsReplaceAll_docker]
    show replaceScan "docker.io/".data [] 0 (labels.get "image").data = _
    rw [himg, replaceScan_first _ _ _ _ (by decide) hfirst]
    simp

/-- Claim C2 at the sample of the specification: pod "p1", container "c1", image
"docker.io/nginx:1.2" gives the image "nginx:1.2". -/
theorem classify_pod_witness :
    podP1.get "__name__" = "kube_pod_container_info" ∧
    ∃ e, classify podP1 = some e ∧ e.Typ = EntityPod ∧ e.Name = "p1" ∧
      e.ContainerName = "c1" ∧ e.ContainerImage = "nginx:1.2" := by
  obtain ⟨e, h1, h2, h3, h4, h5, _⟩ := classify_pod_spec podP1 (by decide)
  refine ⟨by decide, e, h1, h2, h3.trans (by decide), h4.trans (by decide),
    h5.trans (by decide)⟩

/-- Claim C3: `Has` is true exactly when the filter is empty or one of its patterns
matches the name; an empty filter accepts every name, and a filter with patterns
none of which matches rejects it. -/
theorem Has_spec (cf : ClusterFilter) (name : String) :
    (ClusterFilter.Has cf name = true ↔
      (ClusterFilter.Empty cf = true ∨
        ∃ pat re, cf.lookup pat = some re ∧ re.MatchString name = true)) ∧
    (cf.keys = [] → ClusterFilter.Has cf name = true) ∧
    (cf.keys ≠ [] → (∀ pat re, cf.lookup pat = some re → re.MatchString name = false) →
      ClusterFilter.Has cf name = false) := by
  have hkeys : ClusterFilter.Empty cf = true ↔ cf.keys = [] := by
    simp [ClusterFilter.Empty, AList.keys, List.keys]
  refine ⟨?_, ?_, ?_⟩
  · cases h : ClusterFilter.Empty cf with
    | true => simp [Has_of_Empty cf name h]
    | false => simp [Has_iff_match cf name h]
  · intro h
    exact Has_of_Empty cf name (hkeys.mpr h)
  · intro h hall
    have hE : ClusterFilter.Empty cf = false := by
      cases hc : ClusterFilter.Empty cf with
      | true => exact absurd (hkeys.mp hc) h
      | false => rfl
    cases hH : ClusterFilter.Has cf name with
    | false => rfl
    | true =>
      obtain ⟨pat, re, hl, hm⟩ := (Has_iff_match cf name hE).mp hH
      rw [hall pat re hl] at hm
      exact Bool.noConfusion hm

/-- Claim C3 at concrete filters: the filter holding the pattern "prod" accepts
"prod-eu" because that pattern matches, and the empty filter accepts "dev". -/
theorem Has_spec_witness :
    ClusterFilter.Has prodFilter "prod-eu" = true ∧
    ClusterFilter.Has (∅ : ClusterFilter) "dev" = true :=
  ⟨(Has_spec prodFilter "prod-eu").1.mpr
      (Or.inr ⟨"prod", literalRegexp "prod", rfl, by decide⟩),
    (Has_spec ∅ "dev").2.1 (by decide)⟩

/-- Claim C4: `SetChartFrom` takes the chart name from `label_chart` when that key
is present, whatever `label_helm_sh_chart` holds; otherwise from
`label_helm_sh_chart` when present; with neither key the chart name is left as it
was, which is the empty string for an entity coming out of the classifier.  The
other fields are never changed. -/
theorem SetChartFrom_spec (e : EntityInfo) (labels : Labels) :
    (∀ v, labels "label_chart" = some v → (e.SetChartFrom labels).ChartName = v) ∧
    (∀ v, labels "label_chart" = none → labels "label_helm_sh_chart" = some v →
      (e.SetChartFrom labels).ChartName = v) ∧
    (labels "label_chart" = none → labels "label_helm_sh_chart" = none →
      (e.SetChartFrom labels).ChartName = e.ChartName ∧
      ∀ c, classify labels = some c → c.ChartName = "") ∧
    (e.SetChartFrom labels).Name = e.Name ∧ (e.SetChartFrom labels).Typ = e.Typ ∧
    (e.SetChartFrom labels).ContainerName = e.ContainerName ∧
    (e.SetChartFrom labels).ContainerImage = e.ContainerImage := by
  refine ⟨?_, ?_, ?_, SetChartFrom_fields e labels⟩
  · intro v h
    simp [EntityInfo.SetChartFrom, h]
  · intro v h1 h2
    simp [EntityInfo.SetChartFrom, h1, h2]
  · intro h1 h2
    refine ⟨by simp [EntityInfo.SetChartFrom, h1, h2], ?_⟩
    intro c hc
    rw [classify_ChartName labels c hc]
    simp [EntityInfo.SetChartFrom, h1, h2]

/-- Claim C4 at a label map holding both keys: `label_chart` wins. -/
theorem SetChartFrom_spec_witness :
    deployWeb "label_chart" = some "web-1.0" ∧
    deployWeb "label_helm_sh_chart" = some "web-2.0" ∧
    (EntityInfo.SetChartFrom { Name := "web", Typ := EntityDeployment } deployWeb).ChartName =
      "web-1.0" :=
  ⟨by decide, by decide,
    (SetChartFrom_spec { Name := "web", Typ := EntityDeployment } deployWeb).1 "web-1.0"
      (by decide)⟩

/-- Claim C5: `kube_deployment_labels` gives a Deployment named by the `deployment`
label, `kube_daemonset_labels` a DaemonSet named by the `statefulset` label,
`kube_statefulset_labels` a StatefulSet named by the `daemonset` label; each time
the chart name is what `SetChartFrom` finds in the labels and the container fields
are empty. -/
theorem classify_workloads (labels : Labels) :
    (labels.get "__name__" = "kube_deployment_labels" →
      classify labels = some
        { Typ := EntityDeployment, Name := labels.get "deployment",
          ChartName := (EntityInfo.SetChartFrom {} labels).ChartName,
          ContainerName := "", ContainerImage := "" }) ∧
    (labels.get "__name__" = "kube_daemonset_labels" →
      classify labels = some
        { Typ := EntityDaemonset, Name := labels.get "statefulset",
          ChartName := (EntityInfo.SetChartFrom {} labels).ChartName,
          ContainerName := "", ContainerImage := "" }) ∧
    (labels.get "__name__" = "kube_statefulset_labels" →
      classify labels = some
        { Typ := EntityStatefulset, Name := labels.get "daemonset",
          ChartName := (EntityInfo.SetChartFrom {} labels).ChartName,
          ContainerName := "", ContainerImage := "" }) := by
  refine ⟨?_, ?_, ?_⟩ <;> intro h <;> simp only [classify, h] <;>
    unfold EntityInfo.SetChartFrom <;>
    cases labels "label_chart" <;> cases labels "label_helm_sh_chart" <;> simp

/-- Claim C5 at the sample of the specification: deployment "web" with
`label_chart` "web-1.0" gives the Deployment "web" with chart "web-1.0". -/
theorem classify_workloads_witness :
    deployWeb.get "__name__" = "kube_deployment_labels" ∧
    classify deployWeb =
      some { Typ := EntityDeployment, Name := "web", ChartName := "web-1.0" } :=
  ⟨by decide, ((classify_workloads deployWeb).1 (by decide)).trans (by decide)⟩

/-- Claim C6: whatever sequence of swaps `sort.Sort` performs, the entries of a
cluster `c` in the result of `GetInfo` are a permutation of the entities obtained
by classifying, in input order, the samples whose `cluster_name` is `c`, whose
cluster name the filter accepts and whose `__name__` is recognised; a sample with
another `__name__` is exactly one the classifier yields nothing for, and it leaves
the samples after it in the list. -/
theorem GetInfo_entries_perm (sortImpl : EntityInfoList → EntityInfoList)
    (hsort : SwapOnly sortImpl) (results : List Labels) (filter : ClusterFilter) (c : String) :
    (ClusterResultSet.entriesOf (GetInfo sortImpl results filter) c).Perm
      ((results.filter (fun l => retained filter c l && recognised l)).filterMap classify) ∧
    ((results.filter (fun l => retained filter c l && recognised l)).filterMap classify).length =
      (results.filter (fun l => retained filter c l && recognised l)).length ∧
    (∀ l, recognised l = false ↔ classify l = none) := by
  refine ⟨?_, ?_, classify_none_iff⟩
  · rw [filterMap_classify_recognised (retained filter c) results]
    unfold ClusterResultSet.entriesOf
    rw [lookup_GetInfo]
    by_cases h : results.any (retained filter c) = true
    · simp only [h, if_true]
      exact SwapOnly_perm sortImpl hsort _
    · have hnil : results.filter (retained filter c) = [] := by
        rw [List.filter_eq_nil_iff]
        intro x hx hr
        exact h (List.any_eq_true.mpr ⟨x, hx, hr⟩)
      simp [h, hnil]
  · generalize hrs : results.filter (fun l => retained filter c l && recognised l) = rs
    have hall : ∀ l ∈ rs, recognised l = true := by
      intro l hl
      rw [← hrs, List.mem_filter] at hl
      have h2 := hl.2
      simp only [Bool.and_eq_true] at h2
      exact h2.2
    clear hrs
    induction rs with
    | nil => rfl
    | cons l rs ih =>
      have hl : recognised l = true := hall l (List.mem_cons_self l rs)
      cases hc : classify l with
      | none =>
        rw [(classify_none_iff l).mpr hc] at hl
        exact Bool.noConfusion hl
      | some e =>
        rw [List.filterMap_cons_some hc, List.length_cons, List.length_cons,
          ih (fun x hx => hall x (List.mem_cons_of_mem l hx))]

/-- Claim C6 on four samples, the second of an unknown metric: with the insertion
sort of the library the entries of "prod" are a permutation of pod "a" and
deployment "b". -/
theorem GetInfo_entries_perm_witness :
    SwapOnly sortShort ∧
    (ClusterResultSet.entriesOf (GetInfo sortShort [podA, upProd, deployB, podC] ∅) "prod").Perm
      [{ Name := "a", Typ := EntityPod }, { Name := "b", Typ := EntityDeployment }] := by
  refine ⟨sortShort_SwapOnly, ?_⟩
  have h := (GetInfo_entries_perm sortShort sortShort_SwapOnly
    [podA, upProd, deployB, podC] ∅ "prod").1
  have hlist : ([podA, upProd, deployB, podC].filter
      (fun l => retained ∅ "prod" l && recognised l)).filterMap classify =
      [{ Name := "a", Typ := EntityPod }, { Name := "b", Typ := EntityDeployment }] := by
    decide
  rw [hlist] at h
  exact h

/-- Claim C7: `HasPods` is true exactly when some entry of some cluster is a Pod,
`HasDeploys` exactly when some entry of some cluster is not a Pod, and both are
false when every cluster has an empty entry list. -/
theorem HasPods_HasDeploys_spec (crs : ClusterResultSet) :
    (ClusterResultSet.HasPods crs = true ↔
      ∃ c ce e, crs.lookup c = some ce ∧ e ∈ ce.Entries ∧ e.Typ = EntityPod) ∧
    (ClusterResultSet.HasDeploys crs = true ↔
      ∃ c ce e, crs.lookup c = some ce ∧ e ∈ ce.Entries ∧ e.Typ ≠ EntityPod) ∧
    ((∀ c ce, crs.lookup c = some ce → ce.Entries = []) →
      ClusterResultSet.HasPods crs = false ∧ ClusterResultSet.HasDeploys crs = false) := by
  refine ⟨HasPods_iff crs, HasDeploys_iff crs, ?_⟩
  intro hall
  constructor
  · cases h : ClusterResultSet.HasPods crs with
    | false => rfl
    | true =>
      obtain ⟨c, ce, e, hl, he, _⟩ := (HasPods_iff crs).mp h
      rw [hall c ce hl] at he
      exact absurd he (List.not_mem_nil e)
  · cases h : ClusterResultSet.HasDeploys crs with
    | false => rfl
    | true =>
      obtain ⟨c, ce, e, hl, he, _⟩ := (HasDeploys_iff crs).mp h
      rw [hall c ce hl] at he
      exact absurd he (List.not_mem_nil e)

/-- Claim C7 at concrete result sets: the end-to-end scenario has a pod and a
deployment, and a result set whose only cluster has no entries has neither. -/
theorem HasPods_HasDeploys_witness :
    ClusterResultSet.HasPods (GetInfo sortShort [podA, deployB, podC] ∅) = true ∧
    ClusterResultSet.HasDeploys (GetInfo sortShort [podA, deployB, podC] ∅) = true ∧
    ClusterResultSet.HasPods (GetInfo sortShort [upDev] ∅) = false ∧
    ClusterResultSet.HasDeploys (GetInfo sortShort [upDev] ∅) = false := by
  have hdev := (HasPods_HasDeploys_spec (GetInfo sortShort [upDev] ∅)).2.2 (by
    intro c ce hl
    have hm := AList.mem_lookup_iff.mp hl
    have he : (GetInfo sortShort [upDev] ∅).entries =
        [⟨"dev", { ClusterName := "dev", Entries := [] }⟩] := by decide
    rw [he, List.mem_singleton] at hm
    cases hm
    rfl)
  exact ⟨(HasPods_HasDeploys_spec _).1.mpr
      ⟨"prod", { ClusterName := "prod", Entries :=
          [{ Name := "a", Typ := EntityPod }, { Name := "b", Typ := EntityDeployment }] },
        { Name := "a", Typ := EntityPod }, by decide, by decide, rfl⟩,
    (HasPods_HasDeploys_spec _).2.1.mpr
      ⟨"prod", { ClusterName := "prod", Entries :=
          [{ Name := "a", Typ := EntityPod }, { Name := "b", Typ := EntityDeployment }] },
        { Name := "b", Typ := EntityDeployment }, by decide, by decide, by decide⟩,
    hdev.1, hdev.2⟩

/-- Claim C8: `SortedByCluster` returns the keys of the result set in strictly
ascending order: a rearrangement of the key list, so every key once and nothing
else, as many names as there are clusters. -/
theorem SortedByCluster_spec (crs : ClusterResultSet) :
    List.Pairwise (fun s t => strLess s t = true) (ClusterResultSet.SortedByCluster crs) ∧
    (ClusterResultSet.SortedByCluster crs).Perm crs.keys ∧
    (∀ k, k ∈ ClusterResultSet.SortedByCluster crs ↔ (crs.lookup k).isSome = true) ∧
    (ClusterResultSet.SortedByCluster crs).Nodup ∧
    (ClusterResultSet.SortedByCluster crs).length = crs.entries.length := by
  refine ⟨sortStrings_strict _ crs.keys_nodup, sortStrings_perm crs.keys, ?_, ?_, ?_⟩
  · intro k
    rw [ClusterResultSet.SortedByCluster, (sortStrings_perm crs.keys).mem_iff, ← AList.mem_keys,
      AList.lookup_isSome]
  · exact (sortStrings_perm crs.keys).nodup_iff.mpr crs.keys_nodup
  · rw [ClusterResultSet.SortedByCluster, (sortStrings_perm crs.keys).length_eq]
    simp [AList.keys, List.keys]

/-- Claim C9 as stated fails: a single sample of the unknown metric "up" in
cluster "dev" is classified into nothing, and still the result has the key "dev",
with an empty entry list. -/
theorem GetInfo_key_without_entity :
    ClusterFilter.Has ∅ (upDev.get "cluster_name") = true ∧
    classify upDev = none ∧
    (GetInfo sortShort [upDev] ∅).lookup "dev" =
      some { ClusterName := "dev", Entries := [] } := by
  decide

/-- Claim C9, amended: the keys of the result of `GetInfo` are exactly the
`cluster_name` values of the samples the filter accepts, recognised or not, since
the entry is created before the sample is classified; a name the filter rejects is
no key; and the entry list under a key is empty exactly when none of the accepted
samples of that cluster is recognised. -/
theorem GetInfo_keys (sortImpl : EntityInfoList → EntityInfoList) (results : List Labels)
    (filter : ClusterFilter) (c : String) :
    (((GetInfo sortImpl results filter).lookup c).isSome = true ↔
      ∃ l ∈ results, l.get "cluster_name" = c ∧ ClusterFilter.Has filter c = true) ∧
    (ClusterFilter.Has filter c = false → (GetInfo sortImpl results filter).lookup c = none) ∧
    (SwapOnly sortImpl → ∀ ce, (GetInfo sortImpl results filter).lookup c = some ce →
      (ce.Entries = [] ↔ ∀ l ∈ results, retained filter c l = true → recognised l = false)) := by
  have hany : results.any (retained filter c) = true ↔
      ∃ l ∈ results, l.get "cluster_name" = c ∧ ClusterFilter.Has filter c = true := by
    simp [List.any_eq_true, retained]
  refine ⟨?_, ?_, ?_⟩
  · rw [lookup_GetInfo, ← hany]
    by_cases h : results.any (retained filter c) = true <;> simp [h]
  · intro hH
    rw [lookup_GetInfo]
    have : ¬ results.any (retained filter c) = true := by
      rw [hany]
      rintro ⟨l, _, _, h⟩
      rw [hH] at h
      exact Bool.noConfusion h
    simp [this]
  · intro hsort ce hce
    rw [lookup_GetInfo] at hce
    split at hce
    · simp only [Option.some.injEq] at hce
      rw [← hce]
      show sortImpl _ = [] ↔ _
      rw [← List.length_eq_zero, (SwapOnly_perm sortImpl hsort _).length_eq,
        List.length_eq_zero, List.filterMap_eq_nil_iff]
      constructor
      · intro h l hl hr
        exact (classify_none_iff l).mpr (h l (List.mem_filter.mpr ⟨hl, hr⟩))
      · intro h l hl
        obtain ⟨hl1, hl2⟩ := List.mem_filter.mp hl
        exact (classify_none_iff l).mp (h l hl1 hl2)
    · exact Option.noConfusion hce

/-- Claim C9, amended, on the two samples "up" in "prod" and pod "c" in "dev" with
the filter "prod": "prod" is a key and its entry list is empty, "dev" is no key. -/
theorem GetInfo_keys_witness :
    SwapOnly sortShort ∧
    ((GetInfo sortShort [upProd, podC] prodFilter).lookup "prod").isSome = true ∧
    (GetInfo sortShort [upProd, podC] prodFilter).lookup "dev" = none ∧
    ∀ ce, (GetInfo sortShort [upProd, podC] prodFilter).lookup "prod" = some ce →
      ce.Entries = [] := by
  refine ⟨sortShort_SwapOnly,
    (GetInfo_keys sortShort [upProd, podC] prodFilter "prod").1.mpr
      ⟨upProd, by simp, by decide, by decide⟩,
    (GetInfo_keys sortShort [upProd, podC] prodFilter "dev").2.1 (by decide), ?_⟩
  intro ce hce
  refine ((GetInfo_keys sortShort [upProd, podC] prodFilter "prod").2.2
    sortShort_SwapOnly ce hce).mpr ?_
  intro l hl hr
  simp only [List.mem_cons, List.mem_singleton, List.not_mem_nil, or_false] at hl
  rcases hl with rfl | rfl
  · decide
  · exact absurd hr (by decide)

/-- Claim C10: whenever exactly one of the two keys is smaller, `Less` is false in
both directions although the two entities differ; there are three entities of
which the first and the second are incomparable, the second and the third are
incomparable, and the first is `Less` than the third, so incomparability is not
transitive and `Less` is no strict weak order; and `Less` disagrees with the
two-key lexicographic comparator. -/
theorem Less_not_strict_weak_order :
    (∀ (eil : EntityInfoList) (i j : Nat) (a b : EntityInfo),
      eil[i]? = some a → eil[j]? = some b →
      ((strLess a.Typ b.Typ = true ∧ strLess a.Name b.Name = false) ∨
        (strLess a.Typ b.Typ = false ∧ strLess a.Name b.Name = true)) →
      EntityInfoList.Less eil i j = false ∧ EntityInfoList.Less eil j i = false ∧ a ≠ b) ∧
    (∃ eil : EntityInfoList, EntityInfoList.Len eil = 3 ∧
      EntityInfoList.Less eil 0 1 = false ∧ EntityInfoList.Less eil 1 0 = false ∧
      EntityInfoList.Less eil 1 2 = false ∧ EntityInfoList.Less eil 2 1 = false ∧
      EntityInfoList.Less eil 0 2 = true) ∧
    (∃ (eil : EntityInfoList) (a b : EntityInfo), eil[0]? = some a ∧ eil[1]? = some b ∧
      lexLess a b = true ∧ EntityInfoList.Less eil 0 1 = false) := by
  refine ⟨Less_one_key, ?_, ?_⟩
  · exact ⟨[{ Name := "a", Typ := EntityDaemonset }, { Name := "a", Typ := EntityPod },
      { Name := "b", Typ := EntityPod }], by decide⟩
  · exact ⟨[{ Name := "b", Typ := EntityDeployment }, { Name := "a", Typ := EntityPod }],
      { Name := "b", Typ := EntityDeployment }, { Name := "a", Typ := EntityPod }, by decide⟩

/-- Claim C10 at deployment "b" and pod "a": the type is smaller, the name is not,
and `Less` holds in neither direction. -/
theorem Less_not_strict_weak_order_witness :
    EntityInfoList.Less
      [{ Name := "b", Typ := EntityDeployment }, { Name := "a", Typ := EntityPod }] 0 1 = false ∧
    EntityInfoList.Less
      [{ Name := "b", Typ := EntityDeployment }, { Name := "a", Typ := EntityPod }] 1 0 = false ∧
    ({ Name := "b", Typ := EntityDeployment } : EntityInfo) ≠ { Name := "a", Typ := EntityPod } :=
  Less_not_strict_weak_order.1
    [{ Name := "b", Typ := EntityDeployment }, { Name := "a", Typ := EntityPod }] 0 1
    { Name := "b", Typ := EntityDeployment } { Name := "a", Typ := EntityPod } rfl rfl
    (Or.inl (by decide))

end Prom
